import Mathlib

/-!
Shallow embedding of the spelling-algebra engine of librime
(`src/rime/algo/algebra.cc`): the `Script` dictionary container,
the `Projection` rule pipeline and its two `Apply` overloads, including
the three-phase per-rule transformation round over an indexed dictionary.

`std::map` is modelled by an association list kept sorted by a
lexicographic order on strings (`strLt`), so that two maps with the same
contents are equal as lists, exactly as two `std::map`s iterate
identically regardless of insertion history.
-/

namespace RimeAlgebra

/-- Lexicographic strict order on char lists, by code point
(models `std::string` comparison, the `std::map<string, _>` key order). -/
def strLtAux : List Char → List Char → Bool
  | _, [] => false
  | [], _ :: _ => true
  | a :: as, b :: bs =>
    if a < b then true
    else if b < a then false
    else strLtAux as bs

/-- Strict order on strings used for map-key ordering. -/
def strLt (a b : String) : Bool := strLtAux a.data b.data


/-! ### Sorted association lists, modelling `std::map<string, v>` -/

/-- Lookup in an association list (`map::find`). -/
def slookup {v : Type} : List (String × v) → String → Option v
  | [], _ => none
  | (k, x) :: rest, key => if k = key then some x else slookup rest key

/-- Insert-or-assign keeping the list sorted by `strLt`
(`map::operator[] =` / `map::emplace` followed by assignment). -/
def sinsert {v : Type} (key : String) (val : v) : List (String × v) → List (String × v)
  | [] => [(key, val)]
  | (k, x) :: rest =>
    if strLt key k then (key, val) :: (k, x) :: rest
    else if k = key then (key, val) :: rest
    else (k, x) :: sinsert key val rest


/-! ### Data model -/

/-- Annotation carried by a spelling.  `type` is the ordinal spelling kind
(0 = normal < 1 = fuzzy < 2 = abbreviation < 3 = invalid, compared with
`<`/`>` in the source); `credibility` is the score (a `double` in the source,
modelled as an exact number — only its ordering and addition matter here);
`tips` is the display hint. -/
structure SpellingProperties where
  type : Nat
  credibility : ℤ
  tips : String
deriving DecidableEq, Repr

/-- Modelled from the spec: the default-constructed annotation of a fresh
`Spelling` (its definition lives in `spelling.h`, outside `src/`): the most
canonical kind, zero credibility, no tip. -/
def SpellingProperties.init : SpellingProperties := ⟨0, 0, ""⟩

/-- One spelling variant: its text and its annotation. -/
structure Spelling where
  str : String
  properties : SpellingProperties
deriving DecidableEq, Repr

/-- Modelled from the spec: `Spelling`'s constructor from a syllable string
(`spelling.h`, outside `src/`) stores the string and default annotation. -/
def Spelling.ofStr (s : String) : Spelling := ⟨s, .init⟩

/-- `Script`: `map<string, vector<Spelling>>`, modelled as a key-sorted
association list (the iteration sequence of the `std::map`). -/
abbrev Script := List (String × List Spelling)

/-- Inner map of the per-round `IndexedScript`: `map<string, SpellingProperties>`. -/
abbrev PropsMap := List (String × SpellingProperties)

/-- `IndexedScript`: `map<string, map<string, SpellingProperties>>`, the working
representation used inside `Projection::Apply(Script*)`. -/
abbrev IndexedScript := List (String × PropsMap)

/-- A compiled rule (`Calculation`, external collaborator): `Apply` rewrites a
spelling in place and reports whether it changed, or throws (modelled as
`Except.error`); `deletion`/`addition` are the policy flags. -/
structure Calculation where
  apply : Spelling → Except String (Spelling × Bool)
  deletion : Bool
  addition : Bool

/-- `Script::AddSyllable`: fails without mutation if the syllable exists,
otherwise inserts the syllable with itself as its sole spelling. -/
def Script.addSyllable (sc : Script) (syllable : String) : Script × Bool :=
  if slookup sc syllable ≠ none then (sc, false)
  else (sinsert syllable [Spelling.ofStr syllable] sc, true)

/-- The collision step used whenever an entry for the same (syllable, text)
pair already exists (`Script::Merge`'s else-branch and both phase-3 else
branches): keep the smaller kind, the larger credibility, clear the tip. -/
def mergeProps (xp zz : SpellingProperties) : SpellingProperties :=
  ⟨min xp.type zz.type, max xp.credibility zz.credibility, ""⟩

/-- The accumulation step applied when a derived entry is created from a rule
output (`Script::Merge`'s pre-combination and the phase-3 addition branch):
larger kind, summed credibility, rule tip when non-empty. -/
def accumulate (sp xp : SpellingProperties) : SpellingProperties :=
  ⟨max sp.type xp.type, xp.credibility + sp.credibility,
   if sp.tips ≠ "" then sp.tips else xp.tips⟩

/-! ### Projection::Load -/

/-- Loop body of `Projection::Load`: walks the settings list, compiling each
formula; stops at the first null value or parse failure, reporting its 1-based
index (and the formula text when it parsed to null).  `parse` stands for the
external `Calculus::Parse`, `none` modelling a throw/null result. -/
def loadLoop (parse : String → Option Calculation) :
    List (Option String) → Nat → List Calculation →
      List Calculation × Bool × Option (Nat × Option String)
  | [], _, acc => (acc, true, none)
  | none :: _, i, acc => (acc, false, some (i + 1, none))
  | some f :: rest, i, acc =>
    match parse f with
    | none => (acc, false, some (i + 1, some f))
    | some x => loadLoop parse rest (i + 1) (acc ++ [x])

/-- `Projection::Load`: null settings fail leaving the pipeline as it was;
otherwise the pipeline is cleared and rebuilt, and on any failure it is
cleared again, so it ends up fully loaded or empty.  Returns the new
pipeline, the success flag and the reported error, if any. -/
def Projection.load (parse : String → Option Calculation)
    (settings : Option (List (Option String))) (calc0 : List Calculation) :
    List Calculation × Bool × Option (Nat × Option String) :=
  match settings with
  | none => (calc0, false, none)
  | some l =>
    let r := loadLoop parse l 0 []
    if r.2.1 then (r.1, true, r.2.2) else ([], false, r.2.2)

/-! ### Projection::Apply(string*) -/

/-- The rule loop of `Projection::Apply(string*)`: each rule rewrites the
single evolving spelling; the modified flag accumulates with `||`; a rule
error aborts the whole loop. -/
def applyStrLoop : List Calculation → Spelling → Bool → Except String (Spelling × Bool)
  | [], s, m => .ok (s, m)
  | x :: rest, s, m =>
    match x.apply s with
    | .error e => .error e
    | .ok (s2, applied) => applyStrLoop rest s2 (m || applied)

/-- `Projection::Apply(string*)` on a non-null string: empty input returns
false untouched; otherwise all rules run over one evolving spelling; on a rule
error the call returns false with the input unmodified; on success the string
is reassigned only if some rule reported a change. -/
def Projection.applyString (p : List Calculation) (value : String) : String × Bool :=
  if value = "" then (value, false)
  else
    match applyStrLoop p (Spelling.ofStr value) false with
    | .error _ => (value, false)
    | .ok (s, modified) => (if modified then s.str else value, modified)

/-- `Projection::Apply(string*)` including the null-pointer case, which is
checked before anything else in this overload. -/
def Projection.applyStringPtr (p : List Calculation) :
    Option String → Option String × Bool
  | none => (none, false)
  | some v =>
    (some (Projection.applyString p v).1, (Projection.applyString p v).2)

/-! ### Projection::Apply(Script*) — the three-phase round

One round applies one rule to every key of the current generation
(`value_keys`), then builds the next generation `new_value`.  Phase 1 fans
the rule out over the snapshot of keys; phase 2 sequentially creates the
skeleton of output keys; phase 3 fills the created entries.  The phases are
embedded in their serialized, single-worker processing order (the order of
`value_keys`).  The source's parallel phase-3 loop is not given a schedule
semantics here: its critical sections lock a by-value copy of the anchor
(`omp_lock_t anchor = get_anchor(k);`, algebra.cc:246, 273-274), so they are
not mutually exclusive and concurrent executions can interleave inside the
find/insert sequences — see `updCellAt` and the raced exhibit below. -/

/-- One record of `applied_spelling_cache`: the source key, the rewritten
spelling and the applied flag.  The error slot of the source tuple is dead:
the `catch` in phase 1 executes `continue` before the tuple is pushed, so a
key whose rule application threw never reaches the cache (and the phase-2
error check can never fire). -/
abbrev CacheEntry := String × Spelling × Bool

/-- Phase 1: apply the rule to every key of the snapshot; a throwing key is
skipped (`continue`) and silently dropped from the round. -/
def phase1 (x : Calculation) (keys : List String) : List CacheEntry :=
  keys.filterMap fun k =>
    match x.apply (Spelling.ofStr k) with
    | .error _ => none
    | .ok (s, applied) => some (k, s, applied)

/-- `new_value.emplace(key, {})` guarded by the `new_value_keys_set` test:
create an (initially empty) entry map at `key` unless one exists. -/
def insEmpty (key : String) (nv : IndexedScript) : IndexedScript :=
  match slookup nv key with
  | some _ => nv
  | none => sinsert key [] nv

/-- One guarded skeleton creation: when `cond` holds and `key` is absent,
create its empty entry map and record the key in `new_value_keys`. -/
def skelAdd (cond : Bool) (key : String) (st : IndexedScript × List String) :
    IndexedScript × List String :=
  if cond then
    match slookup st.1 key with
    | some _ => st
    | none => (sinsert key [] st.1, st.2 ++ [key])
  else st

/-- Phase 2 step for one cache record `(k, s, applied)`: create the retained
key and then the derived key in `new_value` when absent, recording fresh keys
in `new_value_keys` in creation order. -/
def skel1 (x : Calculation) (st : IndexedScript × List String) (t : CacheEntry) :
    IndexedScript × List String :=
  skelAdd (t.2.2 && (x.addition && !(t.2.1.str == ""))) t.2.1.str
    (skelAdd (!t.2.2 || (t.2.2 && !x.deletion)) t.1 st)

/-- The `new_value` component of one phase-2 step, used to reason about the
skeleton irrespective of the recorded key order. -/
def skel1Map (x : Calculation) (nv : IndexedScript) (t : CacheEntry) : IndexedScript :=
  let nv1 := if !t.2.2 || (t.2.2 && !x.deletion) then insEmpty t.1 nv else nv
  if t.2.2 && (x.addition && !(t.2.1.str == "")) then insEmpty t.2.1.str nv1 else nv1

/-- Phase 2: walk the cache records in processing order, starting from an
empty next generation. -/
def phase2 (x : Calculation) (cache : List CacheEntry) : IndexedScript × List String :=
  cache.foldl (skel1 x) ([], [])

/-- The `modified |= applied` accumulation of phase 2. -/
def roundModified (cache : List CacheEntry) (m0 : Bool) : Bool :=
  cache.foldl (fun m t => m || t.2.2) m0

/-- Insert-or-merge of one (text, annotation) pair into a `new_value` entry
map: a fresh text is inserted as-is, a colliding text keeps the smaller kind,
the larger credibility, and a cleared tip. -/
def updCell (xs : String) (xp : SpellingProperties) (vs : PropsMap) : PropsMap :=
  match slookup vs xs with
  | none => sinsert xs xp vs
  | some zz => sinsert xs (mergeProps xp zz) vs

/-- Merge a whole source entry map (iterated in its map order) into a
`new_value` entry map. -/
def fillList (entries : PropsMap) (vs : PropsMap) : PropsMap :=
  entries.foldl (fun vs2 e => updCell e.1 e.2 vs2) vs

/-- Mutate the entry map already created at `k` in `new_value` (phase 2
guarantees its existence; an absent key is a no-op in the model). -/
def updOuter (k : String) (f : PropsMap → PropsMap) (nv : IndexedScript) :
    IndexedScript :=
  match slookup nv k with
  | none => nv
  | some vs => sinsert k (f vs) nv

/-- The accumulation applied in the phase-3 addition branch to every source
entry before it is merged at the derived key. -/
def accAll (sp : SpellingProperties) (entries : PropsMap) : PropsMap :=
  entries.map fun e => (e.1, accumulate sp e.2)

/-- Phase 3 work for one cache record: if the key is retained, merge its
source entries into `new_value[k]`; if a derivation is inserted, merge the
accumulated source entries into `new_value[s.str]`. -/
def fillUnit (x : Calculation) (iv : IndexedScript) (nv : IndexedScript)
    (t : CacheEntry) : IndexedScript :=
  let (k, s, applied) := t
  let v := (slookup iv k).getD []
  let nv1 :=
    if !applied || (applied && !x.deletion) then
      updOuter k (fillList v) nv
    else nv
  if applied && (x.addition && !(s.str == "")) then
    updOuter s.str (fillList (accAll s.properties v)) nv1
  else nv1

/-- Phase 3 in its serialized (single-worker) order: process the cache
records one after another over the skeleton, each `fillUnit` running to
completion before the next starts. -/
def phase3 (x : Calculation) (iv : IndexedScript) (cacheOrd : List CacheEntry)
    (nv : IndexedScript) : IndexedScript :=
  cacheOrd.foldl (fillUnit x iv) nv

/-- One round given the phase-2 and phase-3 processing lists; `runRound`
passes the phase-1 cache, in `value_keys` order, for both — the serialized
single-worker execution. -/
def roundSched (x : Calculation) (iv : IndexedScript) (ord2 ord3 : List CacheEntry) :
    IndexedScript × List String :=
  let nv := phase2 x ord2
  (phase3 x iv ord3 nv.1, nv.2)

/-- One phase-3 cell update split into its two steps as written in the
source: the lookup `vs.find(xs)` (algebra.cc:254, 292) and, later, the write
(`vs[xs] = xp` on a miss, lines 256/294, or the in-place merge, lines
257-264/295-302).  `seen` is the lookup result the unit observed at its find
step; the write executes against the map as it is at write time.  When the
two steps run back to back this is exactly `updCell`; when another unit's
write lands between them (possible because the anchor lock is copied by
value, so the critical sections do not exclude each other), a write based on
a stale `seen = none` overwrites instead of merging. -/
def updCellAt (xs : String) (xp : SpellingProperties)
    (seen : Option SpellingProperties) (vs : PropsMap) : PropsMap :=
  match seen with
  | none => sinsert xs xp vs
  | some zz => sinsert xs (mergeProps xp zz) vs

/-- One full round in single-worker (canonical) order: phase-1 cache order is
the `value_keys` order, and phases 2 and 3 process it in the same order. -/
def runRound (x : Calculation) (st : IndexedScript × List String × Bool) :
    IndexedScript × List String × Bool :=
  let cache := phase1 x st.2.1
  let nv := roundSched x st.1 cache cache
  (nv.1, nv.2, roundModified cache st.2.2)

/-- Build `indexed_value` from the input script: each syllable's vector is
collapsed into a map keyed by each spelling's text (later duplicates
overwrite). -/
def indexScript (sc : Script) : IndexedScript :=
  sc.foldl
    (fun iv v =>
      sinsert v.1
        (v.2.foldl (fun vs s => sinsert s.str s.properties vs)
          ((slookup iv v.1).getD []))
        iv)
    []

/-- Flatten the final generation back to a `Script`, iterating both map
levels in their key order. -/
def flattenIndexed (iv : IndexedScript) : Script :=
  iv.map fun v => (v.1, v.2.map fun s => Spelling.mk s.1 s.2)

/-- `Projection::Apply(Script*)` on a non-null script: empty input returns
false; otherwise the script is indexed, every rule runs one round over the
current generation, and the script is replaced by the flattened final
generation only if some rule reported a change. -/
def Projection.applyScript (p : List Calculation) (value : Script) : Script × Bool :=
  if value = [] then (value, false)
  else
    let st :=
      p.foldl (fun st x => runRound x st)
        (indexScript value, value.map Prod.fst, false)
    (if st.2.2 then flattenIndexed st.1 else value, st.2.2)

/-- `Projection::Apply(Script*)` including the null-pointer case: this
overload reads `value->size()` for its nvtx range payload before the null
check, so a null pointer dereferences null — there is no defined result,
modelled as `none`. -/
def Projection.applyScriptPtr (p : List Calculation) :
    Option Script → Option (Script × Bool)
  | none => none
  | some v => some (Projection.applyScript p v)

/-! ### Spec-side comparison definitions -/

/-- Stated from the spec's words, for comparison with `applyStrLoop`: run the
rules in order over the evolving spelling and collect every per-rule changed
report, so that the overall flag can be stated as the OR across rules. -/
def applyStrReports : List Calculation → Spelling → Except String (Spelling × List Bool)
  | [], s => .ok (s, [])
  | x :: rest, s =>
    match x.apply s with
    | .error e => .error e
    | .ok (s2, applied) =>
      match applyStrReports rest s2 with
      | .error e => .error e
      | .ok (s3, bs) => .ok (s3, applied :: bs)

/-- Stated from the spec's words, for comparison with `Projection.load`: the
index (counting from `i`) and text of the first formula that fails to
compile, if any. -/
def specFirstFailure (parse : String → Option Calculation) :
    List String → Nat → Option (Nat × String)
  | [], _ => none
  | f :: rest, i =>
    if (parse f).isNone then some (i, f) else specFirstFailure parse rest (i + 1)

/-! ### Concrete instances used by the examples -/

/-- A rule rewriting its input to `"zong"` with changed = true, with the
given deletion/addition flags (`retains_original = !deletion`,
`inserts_derived = addition`). -/
def ruleZhong (del add : Bool) : Calculation :=
  ⟨fun _ => .ok (⟨"zong", SpellingProperties.init⟩, true), del, add⟩

/-- The one-syllable dictionary of the flag-matrix example. -/
def zhongScript : Script := [("zhong", [⟨"中", ⟨0, 1, ""⟩⟩])]

/-- A rule throwing on syllable `"a"` and rewriting everything else to
`"c"` with changed = true; deletion = false, addition = true. -/
def calcBug : Calculation :=
  ⟨fun s =>
    if s.str = "a" then .error "boom"
    else .ok (⟨"c", SpellingProperties.init⟩, true),
   false, true⟩

/-- A two-syllable dictionary on which `calcBug` throws for one syllable. -/
def bugScript : Script := [("a", [⟨"x", ⟨0, 1, ""⟩⟩]), ("b", [⟨"y", ⟨0, 2, ""⟩⟩])]

/-- A rule rewriting both `"a"` and `"b"` to the same derived syllable
`"d"`, emitting annotation `E1` for `"a"` and `E2` otherwise, with
deletion = true and addition = true. -/
def calcAccum (E1 E2 : SpellingProperties) : Calculation :=
  ⟨fun s => .ok (⟨"d", if s.str = "a" then E1 else E2⟩, true), true, true⟩

/-- A rule reporting changed = true with an empty rewritten text, with
addition = true. -/
def ruleEmptyOut : Calculation :=
  ⟨fun _ => .ok (⟨"", SpellingProperties.init⟩, true), false, true⟩

/-- A parse function failing exactly on the formula text `"BAD("`. -/
def parseDemo (f : String) : Option Calculation :=
  if f = "BAD(" then none else some ⟨fun s => .ok (s, false), false, false⟩

/-- A rule rewriting any spelling to `"X"` and reporting changed = true. -/
def calcMark : Calculation := ⟨fun _ => .ok (⟨"X", SpellingProperties.init⟩, true), false, false⟩

/-- A rule leaving the spelling alone and reporting changed = false. -/
def calcNoop : Calculation := ⟨fun s => .ok (s, false), false, false⟩


/-! ### Lemmas about the string order and the sorted maps -/

theorem strLtAux_irrefl (l : List Char) : strLtAux l l = false := by
  induction l with
  | nil => rfl
  | cons a as ih => simp [strLtAux, ih]

theorem strLt_irrefl (s : String) : strLt s s = false := strLtAux_irrefl s.data

theorem slookup_sinsert_self {v : Type} (key : String) (val : v) :
    ∀ m : List (String × v), slookup (sinsert key val m) key = some val := by
  intro m
  induction m with
  | nil => simp [sinsert, slookup]
  | cons p rest ih =>
    obtain ⟨k, x⟩ := p
    by_cases h2 : k = key
    · subst h2
      simp [sinsert, strLt_irrefl, slookup]
    · cases h1 : strLt key k with
      | true => simp [sinsert, h1, slookup]
      | false => simp [sinsert, h1, h2, slookup, ih]

theorem slookup_sinsert_ne {v : Type} {key key' : String} (hne : key' ≠ key) (val : v) :
    ∀ m : List (String × v), slookup (sinsert key val m) key' = slookup m key' := by
  intro m
  have hne' : key ≠ key' := Ne.symm hne
  induction m with
  | nil => simp [sinsert, slookup, hne']
  | cons p rest ih =>
    obtain ⟨k, x⟩ := p
    by_cases h2 : k = key
    · subst h2
      simp [sinsert, strLt_irrefl, slookup, hne']
    · cases h1 : strLt key k with
      | true => simp [sinsert, h1, slookup, hne']
      | false => simp [sinsert, h1, h2, slookup, ih]

theorem skelAdd_fst (c : Bool) (key : String) (st : IndexedScript × List String) :
    (skelAdd c key st).1 = if c then insEmpty key st.1 else st.1 := by
  cases c with
  | false => simp [skelAdd]
  | true =>
    simp only [skelAdd, insEmpty, if_true]
    cases h : slookup st.1 key <;> simp [h]

theorem skel1_fst (x : Calculation) (st : IndexedScript × List String) (t : CacheEntry) :
    (skel1 x st t).1 = skel1Map x st.1 t := by
  simp only [skel1, skel1Map, skelAdd_fst]

theorem phase2_fst (x : Calculation) :
    ∀ (cache : List CacheEntry) (st : IndexedScript × List String),
      (cache.foldl (skel1 x) st).1 = cache.foldl (skel1Map x) st.1 := by
  intro cache
  induction cache with
  | nil => intro st; rfl
  | cons t rest ih =>
    intro st
    simp only [List.foldl_cons]
    rw [ih, skel1_fst]

/-! ### Supporting lemmas for the remaining claims -/

theorem phase1_key_mem (x : Calculation) (keys : List String) :
    ∀ t ∈ phase1 x keys, t.1 ∈ keys := by
  intro t ht
  simp only [phase1, List.mem_filterMap] at ht
  obtain ⟨k, hk, hmatch⟩ := ht
  cases hx : x.apply (Spelling.ofStr k) with
  | error e => rw [hx] at hmatch; cases hmatch
  | ok r =>
    rw [hx] at hmatch
    cases hmatch
    exact hk

theorem updOuter_lookup_none {q : String} (k : String) (f : PropsMap → PropsMap)
    (nv : IndexedScript) (h : slookup nv q = none) :
    slookup (updOuter k f nv) q = none := by
  unfold updOuter
  cases hk : slookup nv k with
  | none => exact h
  | some vs =>
    by_cases hq : q = k
    · subst hq; rw [hk] at h; cases h
    · rw [slookup_sinsert_ne hq]; exact h

theorem fillUnit_lookup_none {q : String} (x : Calculation) (iv : IndexedScript)
    (nv : IndexedScript) (t : CacheEntry) (h : slookup nv q = none) :
    slookup (fillUnit x iv nv t) q = none := by
  obtain ⟨k, s, a⟩ := t
  simp only [fillUnit]
  by_cases h1 : (!a || (a && !x.deletion)) = true <;>
    by_cases h2 : (a && (x.addition && !(s.str == ""))) = true <;>
      simp only [h1, h2, if_true, if_false] <;>
        first
          | exact updOuter_lookup_none _ _ _ (updOuter_lookup_none _ _ _ h)
          | exact updOuter_lookup_none _ _ _ h
          | exact h

theorem phase3_lookup_none {q : String} (x : Calculation) (iv : IndexedScript) :
    ∀ (cache : List CacheEntry) (nv : IndexedScript), slookup nv q = none →
      slookup (phase3 x iv cache nv) q = none := by
  intro cache
  induction cache with
  | nil => intro nv h; exact h
  | cons t rest ih =>
    intro nv h
    exact ih _ (fillUnit_lookup_none x iv nv t h)

theorem insEmpty_lookup_empty (key : String) (nv : IndexedScript)
    (hkey : key ≠ "") (h : slookup nv "" = none) :
    slookup (insEmpty key nv) "" = none := by
  unfold insEmpty
  cases hk : slookup nv key with
  | some vs => exact h
  | none => rw [slookup_sinsert_ne (Ne.symm hkey)]; exact h

theorem skel1Map_lookup_empty (x : Calculation) (nv : IndexedScript) (t : CacheEntry)
    (hk : t.1 ≠ "") (h : slookup nv "" = none) :
    slookup (skel1Map x nv t) "" = none := by
  obtain ⟨k, s, a⟩ := t
  simp only [skel1Map]
  by_cases h1 : (!a || (a && !x.deletion)) = true <;>
    by_cases h2 : (a && (x.addition && !(s.str == ""))) = true <;>
      simp only [h1, h2, if_true, if_false]
  · have hs : s.str ≠ "" := by
      intro he
      simp [he] at h2
    exact insEmpty_lookup_empty _ _ hs (insEmpty_lookup_empty _ _ hk h)
  · exact insEmpty_lookup_empty _ _ hk h
  · have hs : s.str ≠ "" := by
      intro he
      simp [he] at h2
    exact insEmpty_lookup_empty _ _ hs h
  · exact h

theorem phase2_lookup_empty (x : Calculation) :
    ∀ (cache : List CacheEntry) (nv : IndexedScript),
      (∀ t ∈ cache, t.1 ≠ "") → slookup nv "" = none →
      slookup (cache.foldl (skel1Map x) nv) "" = none := by
  intro cache
  induction cache with
  | nil => intro nv _ h; exact h
  | cons t rest ih =>
    intro nv hc h
    exact ih _ (fun u hu => hc u (List.mem_cons_of_mem t hu))
      (skel1Map_lookup_empty x nv t (hc t (List.mem_cons_self t rest)) h)

/-! ### Supporting lemmas for Projection::Load -/

theorem loadLoop_ok (parse : String → Option Calculation) :
    ∀ (l : List String) (i : Nat) (acc : List Calculation),
      specFirstFailure parse l (i + 1) = none →
      loadLoop parse (l.map some) i acc = (acc ++ l.filterMap parse, true, none) := by
  intro l
  induction l with
  | nil => intro i acc _; simp [loadLoop]
  | cons f rest ih =>
    intro i acc h
    simp only [specFirstFailure] at h
    cases hf : parse f with
    | none => simp [hf, Option.isNone] at h
    | some x =>
      rw [hf] at h
      simp only [Option.isNone] at h
      rw [if_neg (by simp)] at h
      simp only [List.map_cons, loadLoop, hf, List.filterMap_cons]
      rw [ih (i + 1) (acc ++ [x]) h]
      simp [hf]

theorem loadLoop_err (parse : String → Option Calculation) :
    ∀ (l : List String) (i : Nat) (acc : List Calculation) (j : Nat) (f : String),
      specFirstFailure parse l (i + 1) = some (j, f) →
      (loadLoop parse (l.map some) i acc).2.1 = false ∧
      (loadLoop parse (l.map some) i acc).2.2 = some (j, some f) := by
  intro l
  induction l with
  | nil => intro i acc j f h; simp [specFirstFailure] at h
  | cons g rest ih =>
    intro i acc j f h
    simp only [specFirstFailure] at h
    cases hg : parse g with
    | none =>
      rw [hg] at h
      simp only [Option.isNone, if_true] at h
      cases h
      simp [loadLoop, hg]
    | some x =>
      rw [hg] at h
      simp only [Option.isNone] at h
      rw [if_neg (by simp)] at h
      simp only [List.map_cons, loadLoop, hg]
      exact ih (i + 1) (acc ++ [x]) j f h

/-! ### Supporting lemma for Projection::Apply(string*) -/

theorem applyStrLoop_eq_reports :
    ∀ (p : List Calculation) (s : Spelling) (m : Bool),
      applyStrLoop p s m =
        (applyStrReports p s).map fun r => (r.1, m || r.2.any id) := by
  intro p
  induction p with
  | nil => intro s m; simp [applyStrLoop, applyStrReports, Except.map]
  | cons x rest ih =>
    intro s m
    simp only [applyStrLoop, applyStrReports]
    cases x.apply s with
    | error e => simp [Except.map]
    | ok r =>
      obtain ⟨s2, applied⟩ := r
      simp only
      rw [ih]
      cases applyStrReports rest s2 with
      | error e => simp [Except.map]
      | ok r2 => simp [Except.map, Bool.or_assoc]

/-! ### Claim theorems -/

/-- C8: the collision merge invariant (kind = min, credibility = max, tip
cleared) is associative and commutative: for any three annotations A, B, C,
merging them in any association or order yields the same annotation. -/
theorem mergeProps_assoc_comm (A B C : SpellingProperties) :
    mergeProps (mergeProps A B) C = mergeProps A (mergeProps B C) ∧
    mergeProps (mergeProps A B) C = mergeProps (mergeProps A C) B := by
  constructor <;>
    simp [mergeProps, min_assoc, max_assoc, min_comm, max_comm, min_left_comm,
      max_left_comm]

/-- C4 counterexample: `AddSyllable` on a fresh syllable does not insert an
empty entry list — it inserts a singleton list holding the syllable itself as
its own spelling (`(*this)[syllable].push_back(spelling)` after constructing
`Spelling spelling(syllable)`). -/
theorem addSyllable_not_empty_list :
    (Script.addSyllable [] "za").2 = true ∧
    slookup (Script.addSyllable [] "za").1 "za" = some [Spelling.ofStr "za"] ∧
    some [Spelling.ofStr "za"] ≠ some ([] : List Spelling) := by
  refine ⟨rfl, rfl, by decide⟩

/-- C4 (amended): for every script and syllable name, `AddSyllable` returns
false and performs no mutation when the syllable already exists, and
otherwise inserts a singleton entry list holding the syllable itself as its
sole spelling (with default annotation), leaving every other key unchanged,
and returns true. -/
theorem addSyllable_spec (sc : Script) (name : String) :
    (slookup sc name ≠ none → Script.addSyllable sc name = (sc, false)) ∧
    (slookup sc name = none →
      (Script.addSyllable sc name).2 = true ∧
      slookup (Script.addSyllable sc name).1 name = some [Spelling.ofStr name] ∧
      ∀ k, k ≠ name → slookup (Script.addSyllable sc name).1 k = slookup sc k) := by
  constructor
  · intro h
    simp [Script.addSyllable, h]
  · intro h
    refine ⟨?_, ?_, ?_⟩
    · simp [Script.addSyllable, h]
    · simp [Script.addSyllable, h, slookup_sinsert_self]
    · intro k hk
      simp [Script.addSyllable, h, slookup_sinsert_ne hk]

theorem addSyllable_spec_witness :
    slookup ([("a", [Spelling.ofStr "a"])] : Script) "b" = none ∧
    ((Script.addSyllable [("a", [Spelling.ofStr "a"])] "b").2 = true ∧
      slookup (Script.addSyllable [("a", [Spelling.ofStr "a"])] "b").1 "b"
        = some [Spelling.ofStr "b"] ∧
      ∀ k, k ≠ "b" →
        slookup (Script.addSyllable [("a", [Spelling.ofStr "a"])] "b").1 k
          = slookup [("a", [Spelling.ofStr "a"])] k) :=
  ⟨by decide, (addSyllable_spec [("a", [Spelling.ofStr "a"])] "b").2 (by decide)⟩

/-- C2: the deletion/addition flag matrix on the one-entry dictionary
`"zhong" → {"中"}` with a rule rewriting `"zhong"` to `"zong"` with
changed = true (`retains_original = !deletion`, `inserts_derived = addition`):
only `"zhong"` when retaining without inserting; only `"zong"` when inserting
without retaining; both when both; the syllable drops out when neither. -/
theorem flag_matrix :
    Projection.applyScript [ruleZhong false false] zhongScript
      = ([("zhong", [⟨"中", ⟨0, 1, ""⟩⟩])], true) ∧
    Projection.applyScript [ruleZhong true true] zhongScript
      = ([("zong", [⟨"中", ⟨0, 1, ""⟩⟩])], true) ∧
    Projection.applyScript [ruleZhong false true] zhongScript
      = ([("zhong", [⟨"中", ⟨0, 1, ""⟩⟩]), ("zong", [⟨"中", ⟨0, 1, ""⟩⟩])], true) ∧
    Projection.applyScript [ruleZhong true false] zhongScript = ([], true) := by
  refine ⟨by decide, by decide, by decide, by decide⟩

/-- C1 (code-bug exhibit): on a two-syllable dictionary where the rule throws
on `"a"` and derives `"c"` from `"b"`, the call does not fail: the phase-1
`catch` branch executes `continue` before the result tuple is cached, so the
phase-2 error check never fires; syllable `"a"` is silently dropped, the
partial generation is committed, and the call reports success. -/
theorem error_silently_swallowed :
    Projection.applyScript [calcBug] bugScript
      = ([("b", [⟨"y", ⟨0, 2, ""⟩⟩]), ("c", [⟨"y", ⟨0, 2, ""⟩⟩])], true) := by
  decide

/-- C10: the string overload returns false untouched on a null pointer or an
empty string, and the script overload returns false on an empty dictionary,
all without consulting any rule (the results do not depend on `p`); but the
script overload reads `value->size()` for its nvtx payload before its null
check, so a null script pointer dereferences null instead of returning false
(no defined result, modelled as `none`). -/
theorem null_and_empty_inputs (p : List Calculation) :
    Projection.applyStringPtr p none = (none, false) ∧
    Projection.applyString p "" = ("", false) ∧
    Projection.applyScript p [] = ([], false) ∧
    Projection.applyScriptPtr p none = none :=
  ⟨rfl, by simp [Projection.applyString], by simp [Projection.applyScript], rfl⟩

/-- C5: `Projection::Load` compiles the formulas in order and is
all-or-nothing: when every formula parses, the pipeline is the compiled list
in order; otherwise the first failing formula aborts the load, its 1-based
index and text are reported, everything compiled before it is discarded, and
the pipeline is left empty. -/
theorem load_all_or_nothing (parse : String → Option Calculation)
    (formulas : List String) (calc0 : List Calculation) :
    (specFirstFailure parse formulas 1 = none →
      Projection.load parse (some (formulas.map some)) calc0
        = (formulas.filterMap parse, true, none)) ∧
    (∀ i f, specFirstFailure parse formulas 1 = some (i, f) →
      Projection.load parse (some (formulas.map some)) calc0
        = ([], false, some (i, some f))) := by
  constructor
  · intro h
    have hl := loadLoop_ok parse formulas 0 [] h
    simp [Projection.load, hl]
  · intro i f h
    have he := loadLoop_err parse formulas 0 [] i f h
    simp [Projection.load, he.1, he.2]

theorem load_all_or_nothing_witness :
    specFirstFailure parseDemo ["ok1", "BAD(", "ok2"] 1 = some (2, "BAD(") ∧
    Projection.load parseDemo (some (["ok1", "BAD(", "ok2"].map some)) []
      = ([], false, some (2, some "BAD(")) :=
  ⟨by decide,
   (load_all_or_nothing parseDemo ["ok1", "BAD(", "ok2"] []).2 2 "BAD(" (by decide)⟩

/-- C6: `Projection::Apply(string*)` runs every rule in pipeline order over a
single evolving candidate spelling; the overall changed result is the OR of
the per-rule changed reports; and if any rule throws, the whole call fails
(returns false) with the input string left unmodified. -/
theorem applyString_or_of_reports (p : List Calculation) (v : String) (hv : v ≠ "") :
    (∀ e, applyStrReports p (Spelling.ofStr v) = .error e →
      Projection.applyString p v = (v, false)) ∧
    (∀ s bs, applyStrReports p (Spelling.ofStr v) = .ok (s, bs) →
      Projection.applyString p v = ((if bs.any id then s.str else v), bs.any id)) := by
  constructor
  · intro e he
    simp [Projection.applyString, hv, applyStrLoop_eq_reports, he, Except.map]
  · intro s bs h
    simp [Projection.applyString, hv, applyStrLoop_eq_reports, h, Except.map]

theorem applyString_or_of_reports_witness :
    ("ab" : String) ≠ "" ∧
    applyStrReports [calcMark, calcNoop] (Spelling.ofStr "ab")
      = .ok (⟨"X", SpellingProperties.init⟩, [true, false]) ∧
    Projection.applyString [calcMark, calcNoop] "ab" = ("X", true) :=
  ⟨by decide, rfl, by
    have h := (applyString_or_of_reports [calcMark, calcNoop] "ab" (by decide)).2
      ⟨"X", SpellingProperties.init⟩ [true, false] rfl
    simpa using h⟩

/-- C7: in every round, a changed verdict with an empty rewritten text never
creates an entry under the empty key: if the empty string is not among the
round's input keys, it is not a key of the next generation — the skeleton
phase refuses to create it (`!s.str.empty()` guards the addition branch) and
the fill phase never touches a key that phase 2 did not create. -/
theorem empty_text_never_creates_key (x : Calculation) (iv : IndexedScript)
    (keys : List String) (m : Bool) (hk : "" ∉ keys) :
    slookup (runRound x (iv, keys, m)).1 "" = none := by
  have hcache : ∀ t ∈ phase1 x keys, t.1 ≠ "" := fun t ht he =>
    hk (he ▸ phase1_key_mem x keys t ht)
  show slookup (phase3 x iv (phase1 x keys) (phase2 x (phase1 x keys)).1) "" = none
  apply phase3_lookup_none
  simp only [phase2]
  rw [phase2_fst x (phase1 x keys) ([], [])]
  exact phase2_lookup_empty x (phase1 x keys) [] hcache rfl

theorem empty_text_never_creates_key_witness :
    ("" : String) ∉ ["q"] ∧
    slookup (runRound ruleEmptyOut ([("q", [("t", ⟨0, 1, ""⟩)])], ["q"], false)).1 ""
      = none :=
  ⟨by decide,
   empty_text_never_creates_key ruleEmptyOut [("q", [("t", ⟨0, 1, ""⟩)])] ["q"] false
     (by decide)⟩

/-- C3: a derived entry is first created with the accumulation rule (kind =
max, credibility = original + rule-emitted, tip = rule tip if non-empty else
original tip); when a second, independent derivation lands on the same
(syllable, text) pair, the two annotations are combined by the collision rule
(kind = min, credibility = max of the two sums — not their sum — tip
cleared).  The two formulas act at their distinct call sites for arbitrary
annotations. -/
theorem accumulation_then_merge (P1 P2 E1 E2 : SpellingProperties) :
    Projection.applyScript [calcAccum E1 E2] [("a", [⟨"t", P1⟩])]
      = ([("d", [⟨"t", accumulate E1 P1⟩])], true) ∧
    Projection.applyScript [calcAccum E1 E2] [("a", [⟨"t", P1⟩]), ("b", [⟨"t", P2⟩])]
      = ([("d", [⟨"t", mergeProps (accumulate E2 P2) (accumulate E1 P1)⟩])], true) ∧
    accumulate E1 P1 =
      ⟨max E1.type P1.type, P1.credibility + E1.credibility,
        if E1.tips ≠ "" then E1.tips else P1.tips⟩ ∧
    mergeProps (accumulate E2 P2) (accumulate E1 P1) =
      ⟨min (max E2.type P2.type) (max E1.type P1.type),
        max (P2.credibility + E2.credibility) (P1.credibility + E1.credibility), ""⟩ :=
  ⟨rfl, rfl, rfl, rfl⟩

/-- C9 (code-bug exhibit): phase 3's critical sections are not mutually
exclusive — `omp_lock_t anchor = get_anchor(k);` (algebra.cc:246, 273-274)
copies the anchor lock by value and locks the copy, and the two-lock site
acquires `anchor_s` then `anchor_k` (276-277) without a canonical order — so
an N-worker schedule can run two units' find/insert sequences interleaved on
the same `new_value` entry.  First conjunct: `updCellAt` with the lookup
taken at write time is exactly the serialized cell update `updCell`.  Second
conjunct: if two units targeting the same (key, text) both execute their
`find` (both see a miss) before either write, the second `vs[xs] = xp`
overwrites the first and the merge is lost — the raced outcome differs from
the serialized outcome.  Third conjunct: the two serialized orders agree, so
the difference is the race, not the unit order; the final content therefore
depends on the schedule, contrary to the claim's intent, which the serialized
merge discipline was meant to guarantee. -/
theorem raced_fill_loses_merge :
    (∀ (xs : String) (xp : SpellingProperties) (vs : PropsMap),
      updCell xs xp vs = updCellAt xs xp (slookup vs xs) vs) ∧
    updCellAt "t" ⟨0, 1, ""⟩ (slookup ([] : PropsMap) "t")
        (updCellAt "t" ⟨0, 2, ""⟩ (slookup ([] : PropsMap) "t") [])
      ≠ updCell "t" ⟨0, 1, ""⟩ (updCell "t" ⟨0, 2, ""⟩ []) ∧
    updCell "t" ⟨0, 1, ""⟩ (updCell "t" ⟨0, 2, ""⟩ [])
      = updCell "t" ⟨0, 2, ""⟩ (updCell "t" ⟨0, 1, ""⟩ []) :=
  ⟨fun xs xp vs => rfl, by decide, by decide⟩

end RimeAlgebra
